import Mathlib

/-!
Verification of the Aerodrome-Base ATQ pool-tag generator
(`src/main.mts`): a shallow embedding of its data model and operations,
with theorems settling the specified properties.

JavaScript strings are modelled as lists of UTF-16 code units
(`JStr := List Nat`); JS numbers that the script manipulates are modelled
exactly (integers as `Int`/`Nat`, the fee computation over `ℚ` — the
doubles involved are exact at these magnitudes; double rounding of parsed
literals is not modelled).
-/

namespace AeroATQ

/-- A JavaScript string: its list of UTF-16 code units. -/
abbrev JStr : Type := List Nat

/-- Code units of a Lean string literal (all literals used are ASCII,
so code units coincide with code points). -/
def jstr (s : String) : JStr := s.data.map Char.toNat

/-- Length of a JS string (its `.length`, in UTF-16 code units). -/
def JStr.len (s : JStr) : Nat := List.length s

/-- Embeds `containsHtmlOrMarkdown` (src/main.mts line 77): the test
`/<[^>]+>/.test(text)` — some position holds a `<` (60) followed by one
or more non-`>` code units and then a `>` (62). A match starting at a
given `<` exists exactly when the next code unit is not `>` and a `>`
occurs somewhere after it (the first such `>` closes `[^>]+`). -/
def containsHtmlOrMarkdown : JStr → Bool
  | [] => false
  | c :: rest =>
      (decide (c = 60) &&
        (match rest with
         | [] => false
         | d :: rest2 => d != 62 && rest2.contains 62)) ||
      containsHtmlOrMarkdown rest

/-- Embeds `truncateString` (src/main.mts line 90): strings longer than
`maxLength` are cut to `maxLength - 3` code units plus `"..."`. -/
def truncateString (text : JStr) (maxLength : Nat) : JStr :=
  if maxLength < text.len then List.take (maxLength - 3) text ++ jstr "..."
  else text

/-- ECMAScript WhiteSpace ∪ LineTerminator code units, as used by
`String.prototype.trim` and by `ToNumber` on strings. -/
def isJsWhitespace (c : Nat) : Bool :=
  c == 9 || c == 10 || c == 11 || c == 12 || c == 13 || c == 32 ||
  c == 160 || c == 5760 || (decide (8192 ≤ c) && decide (c ≤ 8202)) ||
  c == 8232 || c == 8233 || c == 8239 || c == 8287 || c == 12288 ||
  c == 65279

/-- JS `String.prototype.trim`: strip leading and trailing whitespace. -/
def jsTrim (s : JStr) : JStr :=
  List.reverse (List.dropWhile isJsWhitespace
    (List.reverse (List.dropWhile isJsWhitespace s)))

-- --- hex decoding (Buffer.from(hex, "hex")) ---

/-- Is the code unit an ASCII hex digit? -/
def isHexDigitCU (c : Nat) : Bool :=
  (decide (48 ≤ c) && decide (c ≤ 57)) ||
  (decide (97 ≤ c) && decide (c ≤ 102)) ||
  (decide (65 ≤ c) && decide (c ≤ 70))

/-- Value of an ASCII hex digit code unit. -/
def hexVal (c : Nat) : Nat :=
  if 48 ≤ c ∧ c ≤ 57 then c - 48
  else if 97 ≤ c ∧ c ≤ 102 then c - 87
  else if 65 ≤ c ∧ c ≤ 70 then c - 55
  else 0

/-- Embeds `Buffer.from(hex, "hex")`: consecutive hex-digit pairs to bytes
(the call site guarantees an even-length all-hex input). -/
def hexDecode : JStr → List Nat
  | a :: b :: rest => (hexVal a * 16 + hexVal b) :: hexDecode rest
  | _ => []

/-- The test `/^[0-9a-fA-F]{64}$/.test(hex)`. -/
def isHex64 (s : JStr) : Bool :=
  List.length s == 64 && List.all s isHexDigitCU

-- --- UTF-8 decoding (Buffer.prototype.toString("utf8")) ---

/-- Is the byte a UTF-8 continuation byte (0x80–0xBF)? -/
def isCont (c : Nat) : Bool := decide (128 ≤ c) && decide (c ≤ 191)

/-- WHATWG UTF-8 decoder (as used by `Buffer.toString("utf8")`): bytes to
Unicode code points, invalid sequences replaced by U+FFFD with maximal
subpart semantics. Fuel-based so the kernel can evaluate it; fuel ≥ the
number of bytes suffices as each step consumes at least one byte. -/
def utf8DecodeAux : Nat → List Nat → List Nat
  | 0, _ => []
  | _ + 1, [] => []
  | fuel + 1, b :: rest =>
    if b < 128 then b :: utf8DecodeAux fuel rest
    else if decide (194 ≤ b) && decide (b ≤ 223) then
      match rest with
      | c :: rest2 =>
          if isCont c then ((b - 192) * 64 + (c - 128)) :: utf8DecodeAux fuel rest2
          else 65533 :: utf8DecodeAux fuel rest
      | [] => [65533]
    else if decide (224 ≤ b) && decide (b ≤ 239) then
      match rest with
      | c :: rest2 =>
          if (if b == 224 then 160 else 128) ≤ c ∧ c ≤ (if b == 237 then 159 else 191) then
            match rest2 with
            | d :: rest3 =>
                if isCont d then
                  ((b - 224) * 4096 + (c - 128) * 64 + (d - 128)) :: utf8DecodeAux fuel rest3
                else 65533 :: utf8DecodeAux fuel rest2
            | [] => [65533]
          else 65533 :: utf8DecodeAux fuel rest
      | [] => [65533]
    else if decide (240 ≤ b) && decide (b ≤ 244) then
      match rest with
      | c :: rest2 =>
          if (if b == 240 then 144 else 128) ≤ c ∧ c ≤ (if b == 244 then 143 else 191) then
            match rest2 with
            | d :: rest3 =>
                if isCont d then
                  match rest3 with
                  | e :: rest4 =>
                      if isCont e then
                        ((b - 240) * 262144 + (c - 128) * 4096 + (d - 128) * 64 + (e - 128)) ::
                          utf8DecodeAux fuel rest4
                      else 65533 :: utf8DecodeAux fuel rest3
                  | [] => [65533]
                else 65533 :: utf8DecodeAux fuel rest2
            | [] => [65533]
          else 65533 :: utf8DecodeAux fuel rest
      | [] => [65533]
    else 65533 :: utf8DecodeAux fuel rest

/-- UTF-8 decode a byte list to code points. -/
def utf8Decode (bytes : List Nat) : List Nat :=
  utf8DecodeAux (bytes.length + 1) bytes

/-- Encode code points as UTF-16 code units (surrogate pairs above
U+FFFF), yielding the JS string a decoded Buffer becomes. -/
def utf16OfCodePoints (cps : List Nat) : JStr :=
  List.flatten (cps.map fun cp =>
    if cp < 65536 then [cp]
    else [55296 + (cp - 65536) / 1024, 56320 + (cp - 65536) % 1024])

/-- Embeds `.replace(/\u0000/g, "")`: drop NUL code units. -/
def stripNulls (s : JStr) : JStr := List.filter (fun c => c != 0) s

/-- Embeds `.replace(/[^\u0002-\u007f]/g, "")`: keep only code units in
U+0002–U+007F. -/
def stripNonPrintable (s : JStr) : JStr :=
  List.filter (fun c => decide (2 ≤ c) && decide (c ≤ 127)) s

/-- Final stage of `cleanSymbol`: strip to printable ASCII, trim, then
accept only lengths in [2, 32], else the empty string. -/
def finishClean (s : JStr) : JStr :=
  if 2 ≤ (jsTrim (stripNonPrintable s)).len ∧ (jsTrim (stripNonPrintable s)).len ≤ 32
  then jsTrim (stripNonPrintable s) else []

/-- Embeds `raw.startsWith("0x") ? raw.slice(2) : raw`. -/
def strip0x (raw : JStr) : JStr :=
  match raw with
  | 48 :: 120 :: rest => rest
  | _ => raw

/-- Embeds `cleanSymbol` (src/main.mts line 99): optionally drop a `0x` prefix;
if what remains is exactly 64 hex characters, hex-decode it, UTF-8-decode
the bytes and drop NULs; in all cases strip to printable ASCII, trim, and
gate the length to [2, 32]. -/
def cleanSymbol (raw : JStr) : JStr :=
  if isHex64 (strip0x raw) then
    finishClean (stripNulls (utf16OfCodePoints (utf8Decode (hexDecode (strip0x raw)))))
  else finishClean raw

-- --- JS Number coercion of strings (ECMAScript ToNumber) ---

/-- An exact (possibly unnormalized) rational value of a JS number:
numerator and positive denominator. Kept unnormalized so the kernel can
evaluate all arithmetic; value equality is by cross-multiplication. -/
structure Frac where
  num : Int
  den : Nat
deriving DecidableEq

/-- The rational value a `Frac` denotes. -/
def Frac.toQ (f : Frac) : ℚ := (f.num : ℚ) / (f.den : ℚ)

/-- Embed a natural number. -/
def Frac.ofNat (n : Nat) : Frac := ⟨n, 1⟩

/-- Exact addition. -/
def Frac.add (a b : Frac) : Frac := ⟨a.num * b.den + b.num * a.den, a.den * b.den⟩

/-- Exact multiplication. -/
def Frac.mul (a b : Frac) : Frac := ⟨a.num * b.num, a.den * b.den⟩

/-- Negation. -/
def Frac.neg (a : Frac) : Frac := ⟨-a.num, a.den⟩

/-- The power `10^e` for a signed exponent. -/
def Frac.powTen (e : Int) : Frac :=
  if 0 ≤ e then ⟨(10 : Int) ^ e.toNat, 1⟩ else ⟨1, 10 ^ (-e).toNat⟩

/-- A JS number as far as this script observes it: NaN, the infinities,
or an exact value. -/
inductive JsNum where
  | nan
  | posInf
  | negInf
  | num (v : Frac)
deriving DecidableEq

/-- JS strict equality `===` restricted to numbers: `NaN` equals nothing
(itself included); finite values compare by exact value. -/
def jsStrictEqNum : JsNum → JsNum → Bool
  | .num a, .num b => a.num * (b.den : Int) == b.num * (a.den : Int)
  | .posInf, .posInf => true
  | .negInf, .negInf => true
  | _, _ => false

/-- Is the code unit an ASCII decimal digit? -/
def isDigitCU (c : Nat) : Bool := decide (48 ≤ c) && decide (c ≤ 57)

/-- Value of a decimal-digit string. -/
def digitsToNat (l : JStr) : Nat := List.foldl (fun a c => a * 10 + (c - 48)) 0 l

/-- Value of a hex-digit string. -/
def hexDigitsToNat (l : JStr) : Nat := List.foldl (fun a c => a * 16 + hexVal c) 0 l

/-- Parse the optional exponent tail of a StrDecimalLiteral; `none` when
the remainder is not a well-formed, fully consumed exponent. -/
def parseExpTail : JStr → Option Int
  | [] => some 0
  | c :: rest =>
    if c == 101 || c == 69 then
      match rest with
      | 43 :: ds =>
          if ds.isEmpty then none
          else if List.all ds isDigitCU then some (digitsToNat ds) else none
      | 45 :: ds =>
          if ds.isEmpty then none
          else if List.all ds isDigitCU then some (-(digitsToNat ds : Int)) else none
      | ds =>
          if ds.isEmpty then none
          else if List.all ds isDigitCU then some (digitsToNat ds) else none
    else none

/-- Parse an unsigned StrUnsignedDecimalLiteral (digits, optional point
and fraction, optional exponent), consuming the whole string. The value
`(intPart + fracPart/10^k) * 10^e` is built exactly. -/
def parseDecBody (t : JStr) : Option Frac :=
  match List.dropWhile isDigitCU t with
  | 46 :: r2 =>
      if (List.takeWhile isDigitCU t).isEmpty && (List.takeWhile isDigitCU r2).isEmpty then
        none
      else
        match parseExpTail (List.dropWhile isDigitCU r2) with
        | none => none
        | some e =>
            some (Frac.mul
              (Frac.add (Frac.ofNat (digitsToNat (List.takeWhile isDigitCU t)))
                ⟨digitsToNat (List.takeWhile isDigitCU r2),
                  10 ^ (List.takeWhile isDigitCU r2).length⟩)
              (Frac.powTen e))
  | _ =>
      if (List.takeWhile isDigitCU t).isEmpty then none
      else
        match parseExpTail (List.dropWhile isDigitCU t) with
        | none => none
        | some e =>
            some (Frac.mul (Frac.ofNat (digitsToNat (List.takeWhile isDigitCU t)))
              (Frac.powTen e))

/-- Radix-prefixed integer literal body (0x/0o/0b): all digits must
belong to the radix's digit set. -/
def parseRadixBody (digitOk : Nat → Bool) (base : Nat) (ds : JStr) : JsNum :=
  if ds.isEmpty then .nan
  else if List.all ds digitOk then
    .num (Frac.ofNat (List.foldl (fun a c => a * base + hexVal c) 0 ds))
  else .nan

/-- ECMAScript `ToNumber` applied to a string (`Number(s)`): trim, empty
means 0, `Infinity` forms, `0x`/`0o`/`0b` radix literals (no sign), or a
signed decimal literal; anything else is NaN. Values are exact rationals
(double rounding of the parsed literal is not modelled). -/
def jsNumberOfString (s : JStr) : JsNum :=
  let t := jsTrim s
  if t.isEmpty then .num (Frac.ofNat 0)
  else if t = jstr "Infinity" ∨ t = jstr "+Infinity" then .posInf
  else if t = jstr "-Infinity" then .negInf
  else match t with
    | 48 :: 120 :: ds => parseRadixBody isHexDigitCU 16 ds
    | 48 :: 88 :: ds => parseRadixBody isHexDigitCU 16 ds
    | 48 :: 111 :: ds => parseRadixBody (fun c => decide (48 ≤ c) && decide (c ≤ 55)) 8 ds
    | 48 :: 79 :: ds => parseRadixBody (fun c => decide (48 ≤ c) && decide (c ≤ 55)) 8 ds
    | 48 :: 98 :: ds => parseRadixBody (fun c => decide (48 ≤ c) && decide (c ≤ 49)) 2 ds
    | 48 :: 66 :: ds => parseRadixBody (fun c => decide (48 ≤ c) && decide (c ≤ 49)) 2 ds
    | 43 :: r =>
        match parseDecBody r with
        | some v => .num v
        | none => .nan
    | 45 :: r =>
        match parseDecBody r with
        | some v => .num v.neg
        | none => .nan
    | r =>
        match parseDecBody r with
        | some v => .num v
        | none => .nan

-- --- number rendering (Number.prototype.toFixed / toString) ---

/-- Decimal digit code units of a natural number, most significant
first. Fuel-based (fuel > n suffices) so the kernel can evaluate it. -/
def natDigitsAux : Nat → Nat → JStr
  | 0, _ => []
  | fuel + 1, n => if n < 10 then [48 + n] else natDigitsAux fuel (n / 10) ++ [48 + n % 10]

/-- Decimal string of a natural number. -/
def natToJStr (n : Nat) : JStr := natDigitsAux (n + 1) n

/-- Decimal string of an integer (JS `Number.prototype.toString` on an
integral value). -/
def intToJStr (i : Int) : JStr := (if i < 0 then [45] else []) ++ natToJStr i.natAbs

/-- The `f`-digit zero-padded decimal string of `m` (`m < 10^f`). -/
def padDigits : Nat → Nat → JStr
  | 0, _ => []
  | f + 1, m => padDigits f (m / 10) ++ [48 + m % 10]

/-- Embeds `Number.prototype.toFixed f` on the exact value `x` (ECMA: pick the
integer `n` with `n / 10^f` closest to `|x|`, ties away from zero, then
print `n`'s digits with a point before the last `f` and a sign). The
division `(2·|num|·10^f + den) / (2·den)` is exactly `⌊|x|·10^f + 1/2⌋`;
printing by quotient/remainder coincides with ECMA's pad-and-split. -/
def toFixedFrac (x : Frac) (f : Nat) : JStr :=
  let n : Nat := (x.num.natAbs * 10 ^ f * 2 + x.den) / (2 * x.den)
  let body :=
    if f = 0 then natToJStr n
    else natToJStr (n / 10 ^ f) ++ [46] ++ padDigits f (n % 10 ^ f)
  (if x.num < 0 then [45] else []) ++ body

/-- Embeds `formatFeeTier` (src/main.mts line 164) on the basis-point value of
the `feeTier` string: `(bps / 100).toFixed(bps % 100 === 0 ? 0 : 2) + " %"`.
`feeTier` holds an integer in decimal (spec §3), whose JS `Number`
conversion and the double arithmetic here are exact. -/
def formatFeeTier (bps : Int) : JStr :=
  toFixedFrac ⟨bps, 100⟩ (if bps % 100 = 0 then 0 else 2) ++ jstr " %"

-- --- tick spacing inference ---

/-- Absolute differences of consecutive elements. -/
def consecDiffs : List Int → List Nat
  | x :: y :: rest => (y - x).natAbs :: consecDiffs (y :: rest)
  | _ => []

/-- The test `diff < minSpacing`, with `none` playing `Infinity`. -/
def ltOpt (d : Nat) : Option Nat → Bool
  | none => true
  | some mv => decide (d < mv)

/-- The loop of `inferTickSpacing`: keep the least difference that is
positive and below the current minimum (`none` plays `Infinity`). -/
def minPosAux : List Nat → Option Nat → Option Nat
  | [], m => m
  | d :: ds, m =>
      if decide (0 < d) && ltOpt d m then minPosAux ds (some d)
      else minPosAux ds m

/-- Embeds `inferTickSpacing` (src/main.mts line 152) on the numeric values of
the pool's `tickIdx` strings (signed integers per spec §3, converted
exactly by JS `Number`): fewer than 2 ticks gives `undefined` (`none`);
otherwise sort ascending and take the least positive consecutive
difference, `undefined` if there is none. -/
def inferTickSpacing (ticks : List Int) : Option Nat :=
  if ticks.length < 2 then none
  else minPosAux (consecDiffs (List.insertionSort (· ≤ ·) ticks)) none

/-- The label prefix `tickSpacing ? `CL${tickSpacing}` : "CL?"` from
`transformPoolsToTags`: JS truthiness sends both `undefined` and `0` to
`"CL?"`. -/
def clLabel (ticks : List Int) : JStr :=
  match inferTickSpacing ticks with
  | some v => if v = 0 then jstr "CL?" else jstr "CL" ++ natToJStr v
  | none => jstr "CL?"

-- --- data model ---

/-- A token as returned by the subgraph. -/
structure Token where
  id : JStr
  name : JStr
  symbol : JStr
deriving DecidableEq

/-- A pool record. `ticks` and `feeTier` carry the numeric values of the
source's `tickIdx`/`feeTier` strings (signed integers per spec §3; their
JS `Number` conversion is exact). -/
structure Pool where
  id : JStr
  createdAtTimestamp : Int
  token0 : Token
  token1 : Token
  ticks : List Int
  feeTier : Int
deriving DecidableEq

/-- An output record; fields are the source's `"Contract Address"`,
`"Public Name Tag"`, `"Project Name"`, `"UI/Website Link"`,
`"Public Note"`. -/
structure ContractTag where
  contractAddress : JStr
  publicNameTag : JStr
  projectName : JStr
  uiWebsiteLink : JStr
  publicNote : JStr
deriving DecidableEq

-- --- pool-to-tag mapping ---

/-- Is either of the token's display fields HTML/Markdown-like? -/
def tokenInvalid (t : Token) : Bool :=
  containsHtmlOrMarkdown t.name || containsHtmlOrMarkdown t.symbol

/-- A pool is rejected when either token is invalid. -/
def poolInvalid (p : Pool) : Bool := tokenInvalid p.token0 || tokenInvalid p.token1

/-- The `rejectedNames` log entries accumulated by `transformPoolsToTags`:
for each rejected pool, a `name + ", Symbol: " + symbol` entry per
offending token, in page order. -/
def rejectedNames (pools : List Pool) : List JStr :=
  List.flatten (pools.map fun pool =>
    if poolInvalid pool then
      (if tokenInvalid pool.token0 then
        [pool.token0.name ++ jstr ", Symbol: " ++ pool.token0.symbol] else []) ++
      (if tokenInvalid pool.token1 then
        [pool.token1.name ++ jstr ", Symbol: " ++ pool.token1.symbol] else [])
    else [])

/-- The tag built for one valid pool (the `validPools.map` body of
`transformPoolsToTags`, src/main.mts lines 169–184). -/
def poolToTag (chainId : JStr) (pool : Pool) : ContractTag :=
  let symbolsText := jsTrim pool.token0.symbol ++ jstr "/" ++ jsTrim pool.token1.symbol
  let truncatedSymbolsText := truncateString symbolsText 45
  let label := clLabel pool.ticks
  let feePct := formatFeeTier pool.feeTier
  { contractAddress := jstr "eip155:" ++ chainId ++ jstr ":" ++ pool.id
    publicNameTag := jstr "Aerodrome: " ++ label ++ jstr " " ++ truncatedSymbolsText ++
      jstr " (" ++ feePct ++ jstr ")"
    projectName := jstr "Aerodrome"
    uiWebsiteLink := jstr "https://aerodrome.finance"
    publicNote := jstr "The Aerodrome liquidity pool contract for " ++ label ++ jstr " " ++
      pool.token0.symbol ++ jstr "/" ++ pool.token1.symbol ++ jstr " (" ++ feePct ++ jstr ")." }

/-- Embeds `transformPoolsToTags` (src/main.mts line 113): drop invalid pools
(the `forEach` builds exactly this filter), map the rest. -/
def transformPoolsToTags (chainId : JStr) (pools : List Pool) : List ContractTag :=
  (pools.filter fun p => !poolInvalid p).map (poolToTag chainId)

-- --- remote query client (fetchPools) ---

/-- The `data` member of the GraphQL envelope; `pools` may be absent. -/
structure GraphQLData where
  pools : Option (List Pool)
deriving DecidableEq

/-- One HTTP response as `fetchPools` observes it: `resp.ok`,
`resp.status`, and the parsed JSON envelope's `errors` and `data`
members (`errors` present-but-empty is still present, as in the source's
truthiness test). -/
structure HttpResp where
  ok : Bool
  status : Int
  errors : Option (List JStr)
  data : Option GraphQLData
deriving DecidableEq

/-- Embeds `fetchPools` (src/main.mts line 194) on an already-received
response: non-ok status, a present `errors` member, or missing
`data`/`data.pools` each throw; otherwise the raw pool list is
returned. -/
def fetchPools (resp : HttpResp) : Except JStr (List Pool) :=
  if resp.ok then
    match resp.errors with
    | some _ => .error (jstr "GraphQL errors occurred: see logs for details.")
    | none =>
      match resp.data with
      | none => .error (jstr "No pools data found.")
      | some d =>
        match d.pools with
        | none => .error (jstr "No pools data found.")
        | some pools => .ok pools
  else .error (jstr "HTTP error: " ++ intToJStr resp.status)

/-- A successful response carrying a page of pools. -/
def mkOkResp (pools : List Pool) : HttpResp := ⟨true, 200, none, some ⟨some pools⟩⟩

-- --- pagination driver (returnTags) ---

/-- Outcome of one run: the accumulated tags or the thrown message, in
both cases together with the trace of cursors passed to the successive
fetches (one entry per fetch issued). -/
inductive RunResult where
  | ok (trace : List Int) (tags : List ContractTag)
  | failed (trace : List Int) (msg : JStr)
deriving DecidableEq

/-- The cursor trace of a run outcome. -/
def RunResult.trace : RunResult → List Int
  | .ok tr _ => tr
  | .failed tr _ => tr

/-- The dedup filter over one page's tags: drop a tag whose
`"Contract Address"` is in the running seen-set, otherwise keep it and
record its address. Returns the kept tags and the updated seen-set. -/
def dedupeAcc (seen : List JStr) : List ContractTag → List ContractTag × List JStr
  | [] => ([], seen)
  | t :: ts =>
      if t.contractAddress ∈ seen then dedupeAcc seen ts
      else
        let r := dedupeAcc (t.contractAddress :: seen) ts
        (t :: r.1, r.2)

/-- The rethrown message of the loop's catch block: a thrown `Error`
interpolates as `Error: <message>`. -/
def failMsg (msg : JStr) : JStr := jstr "Failed fetching data: Error: " ++ msg

/-- Prepend a cursor to the trace of an outcome. -/
def consTrace (t : Int) : Option RunResult → Option RunResult
  | none => none
  | some (.ok tr tags) => some (.ok (t :: tr) tags)
  | some (.failed tr m) => some (.failed (t :: tr) m)

/-- The `while (isMore)` loop of `returnTags` (src/main.mts lines
230–259). The remote is an oracle giving the response to the `idx`-th
fetch; `fuel` bounds the number of iterations modelled (`none` means the
loop was still running). On a full page of 1000 the cursor advances to
the last raw pool's `createdAtTimestamp` (`parseInt(x.toString(), 10)`
is the identity on these integer timestamps); otherwise the accumulated
tags are returned. A fetch error is rethrown wrapped, ending the run. -/
def runLoop (remote : Nat → HttpResp) (chainId : JStr) :
    Nat → Nat → Int → List JStr → List ContractTag → Option RunResult
  | 0, _, _, _, _ => none
  | fuel + 1, idx, lastTimestamp, seen, acc =>
    match fetchPools (remote idx) with
    | .error msg => some (.failed [lastTimestamp] (failMsg msg))
    | .ok pools =>
      let fresh := dedupeAcc seen (transformPoolsToTags chainId pools)
      let acc2 := acc ++ fresh.1
      if pools.length = 1000 then
        let newTs := match pools.getLast? with
          | some p => p.createdAtTimestamp
          | none => lastTimestamp
        consTrace lastTimestamp (runLoop remote chainId fuel (idx + 1) newTs fresh.2 acc2)
      else some (.ok [lastTimestamp] acc2)

/-- The chain guard `Number(chainId) !== 8453` (negated): accepted iff
the JS numeric coercion of `chainId` strictly equals 8453. -/
def chainIdAccepted (chainId : JStr) : Bool :=
  jsStrictEqNum (jsNumberOfString chainId) (.num (.ofNat 8453))

/-- Embeds `returnTags` (src/main.mts lines 218–261): reject an unsupported
chain id, then a missing API key, both before any fetch; otherwise run
the paging loop from cursor 0 with empty accumulator and seen-set. -/
def returnTags (remote : Nat → HttpResp) (chainId apiKey : JStr) (fuel : Nat) :
    Option RunResult :=
  if chainIdAccepted chainId = false then
    some (.failed [] (jstr "Unsupported Chain ID: " ++ chainId ++ jstr "."))
  else if apiKey.isEmpty then
    some (.failed [] (jstr "API key is required"))
  else runLoop remote chainId fuel 0 0 [] []

-- ------------------------------------------------------------------
-- Theorems
-- ------------------------------------------------------------------

/-- C4: a chain identifier whose numeric coercion is not 8453, or an
empty API key, makes `returnTags` fail immediately: the outcome is
`failed` with an empty cursor trace, i.e. zero calls to the remote query
client were issued, for any remote and any fuel. -/
theorem c4_config_failure (remote : Nat → HttpResp) (chainId apiKey : JStr) (fuel : Nat)
    (h : chainIdAccepted chainId = false ∨ apiKey = []) :
    ∃ msg, returnTags remote chainId apiKey fuel = some (.failed [] msg) := by
  rcases h with h | h
  · exact ⟨jstr "Unsupported Chain ID: " ++ chainId ++ jstr ".", by simp [returnTags, h]⟩
  · by_cases hc : chainIdAccepted chainId
    · exact ⟨jstr "API key is required", by simp [returnTags, hc, h]⟩
    · exact ⟨jstr "Unsupported Chain ID: " ++ chainId ++ jstr ".",
        by simp [returnTags, Bool.eq_false_iff.mpr hc]⟩

/-- Witness for C4 at a concrete unsupported chain id. -/
theorem c4_config_failure_witness :
    ∃ msg, returnTags (fun _ => mkOkResp []) (jstr "1") (jstr "key") 3 =
      some (.failed [] msg) :=
  c4_config_failure (fun _ => mkOkResp []) (jstr "1") (jstr "key") 3 (Or.inl (by decide))

/-- C6: the formatted fee percent is the basis-point value divided by
100 — an exact multiple of 100 basis points prints with 0 decimals (the
integer `bps / 100`), any other value prints with exactly 2 decimals
(integer part `|bps| / 100`, a point, the two digits of `|bps| % 100`,
and a sign) — always followed by `" %"`; in particular 3000 ↦ "30 %",
500 ↦ "5 %", 250 ↦ "2.50 %". -/
theorem c6_fee_tier_format :
    (∀ k : Int, formatFeeTier (100 * k) = intToJStr k ++ jstr " %") ∧
    (∀ bps : Int, ¬(100 ∣ bps) →
      formatFeeTier bps = (if bps < 0 then [45] else []) ++
        (natToJStr (bps.natAbs / 100) ++ [46] ++ padDigits 2 (bps.natAbs % 100)) ++
        jstr " %") ∧
    (formatFeeTier 3000 = jstr "30 %" ∧ formatFeeTier 500 = jstr "5 %" ∧
      formatFeeTier 250 = jstr "2.50 %") := by
  refine ⟨fun k => ?_, fun bps hb => ?_, by decide, by decide, by decide⟩
  · have h0 : (100 * k) % 100 = 0 := Int.mul_emod_right 100 k
    have habs : (100 * k).natAbs = 100 * k.natAbs := by
      rw [Int.natAbs_mul]; rfl
    have hsign : ((100 * k) < 0) = (k < 0) := by
      apply propext; omega
    simp only [formatFeeTier, toFixedFrac, h0, if_pos, hsign, habs, intToJStr]
    have hn : (100 * k.natAbs * 2 + 100) / 200 = k.natAbs := by omega
    simp [hn]
  · have h0 : ¬((bps % 100) = 0) := by
      intro h; exact hb (Int.dvd_iff_emod_eq_zero.mpr h)
    simp only [formatFeeTier, toFixedFrac, if_neg h0]
    have hn : (bps.natAbs * 100 * 2 + 100) / 200 = bps.natAbs := by omega
    simp [hn]

/-- Witness for C6 at the non-multiple basis-point value −250. -/
theorem c6_fee_tier_format_witness : formatFeeTier (-250) = jstr "-2.50 %" :=
  (c6_fee_tier_format.2.1 (-250) (by decide)).trans (by decide)

/-- A `some` outcome of the min-positive-difference loop is a positive
element of the processed list (or its seed), bounds every positive
element from below, and never exceeds the seed. -/
lemma minPosAux_some : ∀ (ds : List Nat) (m : Option Nat) (v : Nat),
    minPosAux ds m = some v →
    ((v ∈ ds ∧ 0 < v) ∨ m = some v) ∧
    (∀ d ∈ ds, 0 < d → v ≤ d) ∧
    (∀ mv, m = some mv → v ≤ mv) := by
  intro ds
  induction ds with
  | nil =>
    intro m v h
    simp only [minPosAux] at h
    subst h
    exact ⟨Or.inr rfl, by simp, fun mv hm => by injection hm with h; rw [h]⟩
  | cons d ds ih =>
    intro m v h
    simp only [minPosAux] at h
    by_cases hc : (decide (0 < d) && ltOpt d m) = true
    · rw [if_pos hc] at h
      rw [Bool.and_eq_true] at hc
      obtain ⟨hc1, hc2⟩ := hc
      have hdpos : 0 < d := of_decide_eq_true hc1
      obtain ⟨h1, h2, h3⟩ := ih _ _ h
      refine ⟨?_, ?_, ?_⟩
      · rcases h1 with ⟨hv, hvp⟩ | hm
        · exact Or.inl ⟨List.mem_cons_of_mem _ hv, hvp⟩
        · injection hm with hd
          exact Or.inl ⟨by rw [hd]; exact List.mem_cons_self _ _, by rw [← hd]; exact hdpos⟩
      · intro e he hep
        rcases List.mem_cons.mp he with heq | he'
        · subst heq
          exact h3 e rfl
        · exact h2 e he' hep
      · intro mv hm
        cases m with
        | none => exact absurd hm (by simp)
        | some mv0 =>
          injection hm with hmv
          have hdlt : d < mv0 := of_decide_eq_true (by simpa [ltOpt] using hc2)
          have hvd : v ≤ d := h3 d rfl
          omega
    · rw [if_neg hc] at h
      obtain ⟨h1, h2, h3⟩ := ih _ _ h
      refine ⟨?_, ?_, ?_⟩
      · rcases h1 with ⟨hv, hvp⟩ | hm
        · exact Or.inl ⟨List.mem_cons_of_mem _ hv, hvp⟩
        · exact Or.inr hm
      · intro e he hep
        rcases List.mem_cons.mp he with heq | he'
        · subst heq
          cases m with
          | none => exact absurd (by simp [hep, ltOpt]) hc
          | some mv0 =>
            have hnot : ¬ e < mv0 := fun hlt => hc (by simp [hep, hlt, ltOpt])
            have := h3 mv0 rfl
            omega
        · exact h2 e he' hep
      · exact h3

/-- If no element of the list is positive, the min-positive loop returns
its seed unchanged. -/
lemma minPosAux_none_of : ∀ ds : List Nat, (∀ d ∈ ds, ¬ 0 < d) →
    ∀ m, minPosAux ds m = m := by
  intro ds
  induction ds with
  | nil => intro _ m; rfl
  | cons d ds ih =>
    intro h m
    have hd : ¬ 0 < d := h d (List.mem_cons_self _ _)
    simp only [minPosAux]
    rw [if_neg (by simp [hd, ltOpt])]
    exact ih (fun e he => h e (List.mem_cons_of_mem _ he)) m

/-- C7: the inferred tick spacing is always positive when present; fewer
than 2 ticks give the distinct unknown value `none` (never 0); when no
positive consecutive difference exists the result is `none`; a `some`
result is the least positive consecutive difference of the
ascending-sorted tick values (the sort being a sorted permutation of the
input); and `[0, 10, 30] ↦ 10`, while `[5]` and `[]` are unknown, giving
label prefix `"CL?"`. -/
theorem c7_tick_spacing :
    (∀ (ticks : List Int) (v : Nat), inferTickSpacing ticks = some v → 0 < v) ∧
    (∀ ticks : List Int, ticks.length < 2 → inferTickSpacing ticks = none) ∧
    (∀ (ticks : List Int) (v : Nat), inferTickSpacing ticks = some v →
      v ∈ consecDiffs (List.insertionSort (· ≤ ·) ticks) ∧
      ∀ d ∈ consecDiffs (List.insertionSort (· ≤ ·) ticks), 0 < d → v ≤ d) ∧
    (∀ ticks : List Int,
      (∀ d ∈ consecDiffs (List.insertionSort (· ≤ ·) ticks), ¬ 0 < d) →
      inferTickSpacing ticks = none) ∧
    (∀ ticks : List Int,
      List.Sorted (· ≤ ·) (List.insertionSort (· ≤ ·) ticks) ∧
      (List.insertionSort (· ≤ ·) ticks).Perm ticks) ∧
    (inferTickSpacing [0, 10, 30] = some 10 ∧ inferTickSpacing [5] = none ∧
      inferTickSpacing ([] : List Int) = none ∧
      clLabel [0, 10, 30] = jstr "CL10" ∧ clLabel [5] = jstr "CL?" ∧
      clLabel ([] : List Int) = jstr "CL?") := by
  refine ⟨fun ticks v h => ?_, fun ticks h => ?_, fun ticks v h => ?_, fun ticks h => ?_,
    fun ticks => ⟨List.sorted_insertionSort _ _, List.perm_insertionSort _ _⟩,
    by decide, by decide, by decide, by decide, by decide, by decide⟩
  · unfold inferTickSpacing at h
    split at h
    · exact absurd h (by simp)
    · rcases (minPosAux_some _ _ _ h).1 with ⟨_, hvp⟩ | hm
      · exact hvp
      · exact absurd hm (by simp)
  · unfold inferTickSpacing
    rw [if_pos h]
  · unfold inferTickSpacing at h
    split at h
    · exact absurd h (by simp)
    · obtain ⟨h1, h2, _⟩ := minPosAux_some _ _ _ h
      rcases h1 with ⟨hv, _⟩ | hm
      · exact ⟨hv, h2⟩
      · exact absurd hm (by simp)
  · unfold inferTickSpacing
    split
    · rfl
    · exact minPosAux_none_of _ h none

/-- Witness for C7: positivity and the short-list cases at concrete
ticks. -/
theorem c7_tick_spacing_witness :
    (0 : Nat) < 10 ∧ inferTickSpacing [7] = none :=
  ⟨c7_tick_spacing.1 [0, 10, 30] 10 (by decide), c7_tick_spacing.2.1 [7] (by decide)⟩

/-- C9: the `"Public Name Tag"` of a mapped pool is
`"Aerodrome: " + prefix + " " + truncatedSymbolPair + " (" + feePercent + ")"`,
where the symbol pair `trim(symbol0) + "/" + trim(symbol1)` is kept
whole when its length is at most 45 and otherwise truncated to its first
42 code units plus `"..."`, for a total length of exactly 45. -/
theorem c9_public_name_tag (chainId : JStr) (p : Pool) :
    ((jsTrim p.token0.symbol ++ jstr "/" ++ jsTrim p.token1.symbol).length ≤ 45 →
      (poolToTag chainId p).publicNameTag =
        jstr "Aerodrome: " ++ clLabel p.ticks ++ jstr " " ++
          (jsTrim p.token0.symbol ++ jstr "/" ++ jsTrim p.token1.symbol) ++
          jstr " (" ++ formatFeeTier p.feeTier ++ jstr ")") ∧
    (45 < (jsTrim p.token0.symbol ++ jstr "/" ++ jsTrim p.token1.symbol).length →
      (poolToTag chainId p).publicNameTag =
        jstr "Aerodrome: " ++ clLabel p.ticks ++ jstr " " ++
          (List.take 42 (jsTrim p.token0.symbol ++ jstr "/" ++ jsTrim p.token1.symbol) ++
            jstr "...") ++
          jstr " (" ++ formatFeeTier p.feeTier ++ jstr ")" ∧
      (truncateString (jsTrim p.token0.symbol ++ jstr "/" ++ jsTrim p.token1.symbol)
        45).length = 45) := by
  constructor
  · intro hle
    simp only [poolToTag, truncateString]
    rw [if_neg (by simp only [JStr.len]; omega)]
  · intro hgt
    have h45 : 45 < JStr.len (jsTrim p.token0.symbol ++ jstr "/" ++ jsTrim p.token1.symbol) := by
      simpa [JStr.len] using hgt
    constructor
    · simp only [poolToTag, truncateString]
      rw [if_pos h45]
    · simp only [truncateString]
      rw [if_pos h45]
      rw [List.length_append, List.length_take]
      have h3 : (jstr "...").length = 3 := by decide
      rw [h3]
      simp only [JStr.len] at h45
      omega

/-- Witness for C9 on a pool whose symbol pair is 47 code units long:
the truncated pair has length exactly 45. -/
theorem c9_public_name_tag_witness :
    (truncateString
      (jsTrim (jstr "AAAAAAAAAAAAAAAAAAAAAAAAAAAAAAAAAAAAAAAAAAAA") ++ jstr "/" ++
        jsTrim (jstr "BB")) 45).length = 45 :=
  ((c9_public_name_tag (jstr "8453")
    ⟨jstr "p", 0, ⟨jstr "t0", jstr "A", jstr "AAAAAAAAAAAAAAAAAAAAAAAAAAAAAAAAAAAAAAAAAAAA"⟩,
      ⟨jstr "t1", jstr "B", jstr "BB"⟩, [], 500⟩).2 (by decide)).2

/-- Splitting a list at the first occurrence of 62 (`>`). -/
lemma mem_split_first {l : List Nat} (h : 62 ∈ l) :
    ∃ b c : List Nat, l = b ++ 62 :: c ∧ 62 ∉ b := by
  induction l with
  | nil => cases h
  | cons x t ih =>
    by_cases hx : x = 62
    · exact ⟨[], t, by rw [hx]; rfl, by simp⟩
    · have h' : 62 ∈ t := by
        rcases List.mem_cons.mp h with h62 | ht
        · exact absurd h62.symm hx
        · exact ht
      obtain ⟨b, c, heq, hnb⟩ := ih h'
      refine ⟨x :: b, c, by rw [heq]; rfl, ?_⟩
      simp only [List.mem_cons, not_or]
      exact ⟨fun h62 => hx h62.symm, hnb⟩

/-- The regex test `/<[^>]+>/` holds exactly when the string splits as
`a ++ "<" ++ b ++ ">" ++ c` with `b` nonempty and free of `>`. -/
lemma containsHtmlOrMarkdown_iff (s : JStr) : containsHtmlOrMarkdown s = true ↔
    ∃ a b c : JStr, s = a ++ 60 :: (b ++ 62 :: c) ∧ b ≠ [] ∧ 62 ∉ b := by
  induction s with
  | nil =>
    simp only [containsHtmlOrMarkdown]
    constructor
    · intro h; cases h
    · rintro ⟨a, b, c, h, -, -⟩
      exact absurd h (by simp)
  | cons x rest ih =>
    simp only [containsHtmlOrMarkdown, Bool.or_eq_true, ih]
    constructor
    · rintro (hfst | ⟨a, b, c, hs, hb, hnb⟩)
      · rw [Bool.and_eq_true] at hfst
        obtain ⟨hx, hmatch⟩ := hfst
        have hx' : x = 60 := of_decide_eq_true hx
        cases rest with
        | nil => cases hmatch
        | cons d r2 =>
          rw [Bool.and_eq_true] at hmatch
          obtain ⟨hd, hcont⟩ := hmatch
          have hd' : d ≠ 62 := by simpa using hd
          have h62 : 62 ∈ r2 := by simpa using hcont
          obtain ⟨b, c, heq, hnb⟩ := mem_split_first h62
          refine ⟨[], d :: b, c, ?_, by simp, ?_⟩
          · simp [hx', heq]
          · simp only [List.mem_cons, not_or]
            exact ⟨fun h => hd' h.symm, hnb⟩
      · exact ⟨x :: a, b, c, by simp [hs], hb, hnb⟩
    · rintro ⟨a, b, c, hs, hb, hnb⟩
      cases a with
      | nil =>
        simp only [List.nil_append] at hs
        cases b with
        | nil => exact absurd rfl hb
        | cons d b' =>
          left
          injection hs with h1 h2
          subst h1
          subst h2
          simp only [List.cons_append, Bool.and_eq_true, decide_eq_true_eq, bne_iff_ne]
          simp only [List.mem_cons, not_or] at hnb
          refine ⟨by trivial, fun h => hnb.1 h.symm, by simp⟩
      | cons a0 a' =>
        right
        injection hs with h1 h2
        exact ⟨a', b, c, h2, hb, hnb⟩

/-- C8: a pool is dropped by the mapper exactly when one of its tokens'
name or symbol matches `<[^>]+>` (a `<`, at least one non-`>` character,
then `>`): every valid pool of the page is still mapped, every output
tag comes from a valid pool, and each offending token contributes its
`name + ", Symbol: " + symbol` entry to the rejected-names log — the
mapper always returns (rejected pools never abort the run). -/
theorem c8_validator_rejection :
    (∀ s : JStr, containsHtmlOrMarkdown s = true ↔
      ∃ a b c : JStr, s = a ++ 60 :: (b ++ 62 :: c) ∧ b ≠ [] ∧ 62 ∉ b) ∧
    (∀ (chainId : JStr) (pools : List Pool) (p : Pool), p ∈ pools → poolInvalid p = false →
      poolToTag chainId p ∈ transformPoolsToTags chainId pools) ∧
    (∀ (chainId : JStr) (pools : List Pool) (t : ContractTag),
      t ∈ transformPoolsToTags chainId pools →
      ∃ p, p ∈ pools ∧ poolInvalid p = false ∧ t = poolToTag chainId p) ∧
    (∀ (pools : List Pool) (p : Pool), p ∈ pools → tokenInvalid p.token0 = true →
      (p.token0.name ++ jstr ", Symbol: " ++ p.token0.symbol) ∈ rejectedNames pools) ∧
    (∀ (pools : List Pool) (p : Pool), p ∈ pools → tokenInvalid p.token1 = true →
      (p.token1.name ++ jstr ", Symbol: " ++ p.token1.symbol) ∈ rejectedNames pools) ∧
    (∀ p : Pool, poolInvalid p = (tokenInvalid p.token0 || tokenInvalid p.token1)) := by
  refine ⟨containsHtmlOrMarkdown_iff, ?_, ?_, ?_, ?_, fun p => rfl⟩
  · intro chainId pools p hp hv
    exact List.mem_map_of_mem _ (List.mem_filter.mpr ⟨hp, by simp [hv]⟩)
  · intro chainId pools t ht
    obtain ⟨p, hp, rfl⟩ := List.mem_map.mp ht
    have hf := List.mem_filter.mp hp
    exact ⟨p, hf.1, by simpa using hf.2, rfl⟩
  · intro pools p hp hv
    simp only [rejectedNames, List.mem_flatten]
    refine ⟨_, List.mem_map_of_mem _ hp, ?_⟩
    have hpi : poolInvalid p = true := by simp [poolInvalid, hv]
    rw [if_pos hpi, if_pos hv]
    simp
  · intro pools p hp hv
    simp only [rejectedNames, List.mem_flatten]
    refine ⟨_, List.mem_map_of_mem _ hp, ?_⟩
    have hpi : poolInvalid p = true := by simp [poolInvalid, hv]
    rw [if_pos hpi, if_pos hv]
    simp

/-- Witness for C8: a `<b>`-tagged token name is flagged and a plain one
is not, at concrete strings. -/
theorem c8_validator_rejection_witness :
    containsHtmlOrMarkdown (jstr "Evil<b>") = true ∧
    ¬ containsHtmlOrMarkdown (jstr "USD Coin") = true :=
  ⟨(c8_validator_rejection.1 (jstr "Evil<b>")).mpr
      ⟨jstr "Evil", [98], [], by decide, by decide, by decide⟩,
    fun h => by
      obtain ⟨a, b, c, hs, hb, hnb⟩ := (c8_validator_rejection.1 (jstr "USD Coin")).mp h
      have : (60 : Nat) ∈ jstr "USD Coin" := by
        rw [hs]; simp
      exact absurd this (by decide)⟩

/-- The length gate of `cleanSymbol`: its output is empty or of length
in [2, 32]. -/
lemma finishClean_length (s : JStr) :
    (finishClean s).length = 0 ∨
    (2 ≤ (finishClean s).length ∧ (finishClean s).length ≤ 32) := by
  unfold finishClean
  split
  · next h => exact Or.inr h
  · exact Or.inl rfl

/-- C5: `cleanSymbol` always returns the empty string or a string of
length in [2, 32]; when the input minus an optional `0x` prefix is
exactly 64 hex characters it post-processes the NUL-stripped UTF-8
decoding of the 32 decoded bytes, and otherwise it post-processes the
raw input — post-processing being the printable-ASCII strip, trim, and
length gate; the `0x` prefix (and nothing else) is what `strip0x`
removes. -/
theorem c5_clean_symbol :
    (∀ raw : JStr, (cleanSymbol raw).length = 0 ∨
      (2 ≤ (cleanSymbol raw).length ∧ (cleanSymbol raw).length ≤ 32)) ∧
    (∀ raw : JStr, isHex64 (strip0x raw) = true →
      cleanSymbol raw =
        finishClean (stripNulls (utf16OfCodePoints (utf8Decode (hexDecode (strip0x raw)))))) ∧
    (∀ raw : JStr, isHex64 (strip0x raw) = false → cleanSymbol raw = finishClean raw) ∧
    (∀ hex : JStr, strip0x (48 :: 120 :: hex) = hex) ∧
    (∀ raw : JStr, (∀ hex : JStr, raw ≠ 48 :: 120 :: hex) → strip0x raw = raw) := by
  refine ⟨fun raw => ?_, fun raw h => ?_, fun raw h => ?_, fun hex => rfl, fun raw h => ?_⟩
  · unfold cleanSymbol
    split
    · exact finishClean_length _
    · exact finishClean_length _
  · unfold cleanSymbol
    rw [if_pos h]
  · unfold cleanSymbol
    rw [if_neg (by simp [h])]
  · rw [strip0x.eq_def]
    split
    · rename_i rest
      exact absurd rfl (h rest)
    · rfl

/-- Witness for C5 on the 64-hex encoding of "WETH" padded with NULs:
the hex path decodes it and the length gate accepts it. -/
theorem c5_clean_symbol_witness :
    cleanSymbol
      (jstr "0x5745544800000000000000000000000000000000000000000000000000000000") =
      jstr "WETH" ∧
    2 ≤ (cleanSymbol
      (jstr "0x5745544800000000000000000000000000000000000000000000000000000000")).length := by
  have h := c5_clean_symbol.2.1
    (jstr "0x5745544800000000000000000000000000000000000000000000000000000000") (by decide)
  have heval : finishClean (stripNulls (utf16OfCodePoints (utf8Decode (hexDecode
      (strip0x (jstr "0x5745544800000000000000000000000000000000000000000000000000000000")))))) =
      jstr "WETH" := by decide
  refine ⟨h.trans heval, ?_⟩
  rcases c5_clean_symbol.1
    (jstr "0x5745544800000000000000000000000000000000000000000000000000000000") with h0 | hb
  · rw [h.trans heval] at h0
    exact absurd h0 (by decide)
  · exact hb.1

/-- The power `10^e` has a positive denominator. -/
lemma powTen_den_pos (e : Int) : 0 < (Frac.powTen e).den := by
  unfold Frac.powTen
  split
  · exact Nat.one_pos
  · exact pow_pos (by norm_num) _

/-- A successfully parsed decimal literal has a positive denominator. -/
lemma parseDecBody_den_pos (t : JStr) (f : Frac) (h : parseDecBody t = some f) :
    0 < f.den := by
  unfold parseDecBody at h
  split at h
  · split at h
    · exact absurd h (by simp)
    · split at h
      · exact absurd h (by simp)
      · injection h with h
        subst h
        exact Nat.mul_pos (Nat.mul_pos Nat.one_pos (pow_pos (by norm_num) _))
          (powTen_den_pos _)
  · split at h
    · exact absurd h (by simp)
    · split at h
      · exact absurd h (by simp)
      · injection h with h
        subst h
        exact Nat.mul_pos Nat.one_pos (powTen_den_pos _)

/-- A successfully parsed radix literal has denominator 1. -/
lemma parseRadixBody_den_pos (ok : Nat → Bool) (b : Nat) (ds : JStr) (f : Frac)
    (h : parseRadixBody ok b ds = .num f) : 0 < f.den := by
  unfold parseRadixBody at h
  split at h
  · exact absurd h (by simp)
  · split at h
    · injection h with h
      subst h
      exact Nat.one_pos
    · exact absurd h (by simp)

/-- Every finite value `Number(s)` produces has a positive denominator. -/
lemma jsNumberOfString_den_pos (s : JStr) (f : Frac)
    (h : jsNumberOfString s = .num f) : 0 < f.den := by
  simp only [jsNumberOfString] at h
  split at h
  · injection h with h
    subst h
    exact Nat.one_pos
  · split at h
    · exact absurd h (by simp)
    · split at h
      · exact absurd h (by simp)
      · split at h <;>
          first
          | exact parseRadixBody_den_pos _ _ _ _ h
          | (split at h
             · rename_i v heq
               injection h with h
               subst h
               exact (parseDecBody_den_pos _ v heq : 0 < v.den)
             · exact absurd h (by simp))

/-- C10: the chain guard accepts exactly the strings whose JS numeric
coercion is the finite value 8453 — hence also non-canonical spellings
such as `"8453.0"`, `" 8453"`, `"8453e0"` and `"0x2105"` — and the
accepted string is embedded verbatim in each output
`eip155:<chainId>:<poolId>` contract address, the guard being the only
gate before the paging loop runs. -/
theorem c10_chain_id_coercion :
    (∀ chainId : JStr, chainIdAccepted chainId = true ↔
      ∃ f : Frac, jsNumberOfString chainId = .num f ∧ f.toQ = 8453) ∧
    (chainIdAccepted (jstr "8453.0") = true ∧ chainIdAccepted (jstr " 8453") = true ∧
      chainIdAccepted (jstr "8453e0") = true ∧ chainIdAccepted (jstr "0x2105") = true) ∧
    (∀ (chainId : JStr) (p : Pool),
      (poolToTag chainId p).contractAddress = jstr "eip155:" ++ chainId ++ jstr ":" ++ p.id) ∧
    (∀ (remote : Nat → HttpResp) (chainId apiKey : JStr) (fuel : Nat),
      chainIdAccepted chainId = true → apiKey ≠ [] →
      returnTags remote chainId apiKey fuel = runLoop remote chainId fuel 0 0 [] []) := by
  refine ⟨fun chainId => ?_, ⟨by decide, by decide, by decide, by decide⟩,
    fun chainId p => rfl, fun remote chainId apiKey fuel hc hk => ?_⟩
  · constructor
    · intro h
      unfold chainIdAccepted at h
      cases hn : jsNumberOfString chainId with
      | nan => rw [hn] at h; cases h
      | posInf => rw [hn] at h; cases h
      | negInf => rw [hn] at h; cases h
      | num f =>
        rw [hn] at h
        simp only [jsStrictEqNum, Frac.ofNat, beq_iff_eq] at h
        have hd : 0 < f.den := jsNumberOfString_den_pos _ _ hn
        refine ⟨f, rfl, ?_⟩
        unfold Frac.toQ
        have hnum : (f.num : ℚ) = 8453 * (f.den : ℚ) := by
          have hz : f.num = 8453 * (f.den : Int) := by simpa using h
          exact_mod_cast hz
        rw [hnum]
        have hdq : ((f.den : ℚ)) ≠ 0 := Nat.cast_ne_zero.mpr hd.ne'
        field_simp
    · rintro ⟨f, hf, hq⟩
      unfold chainIdAccepted
      rw [hf]
      simp only [jsStrictEqNum, Frac.ofNat, beq_iff_eq]
      have hd : 0 < f.den := jsNumberOfString_den_pos _ _ hf
      have hdq : ((f.den : ℚ)) ≠ 0 := Nat.cast_ne_zero.mpr hd.ne'
      unfold Frac.toQ at hq
      have hnum : (f.num : ℚ) = 8453 * (f.den : ℚ) := by
        rw [div_eq_iff hdq] at hq
        exact hq
      have hz : f.num = 8453 * (f.den : Int) := by exact_mod_cast hnum
      simp [hz]
  · cases apiKey with
    | nil => exact absurd rfl hk
    | cons a as =>
      unfold returnTags
      rw [hc]
      simp

/-- Witness for C10: with an accepted non-canonical chain id and a
nonempty key, `returnTags` reaches the paging loop. -/
theorem c10_chain_id_coercion_witness :
    returnTags (fun _ => mkOkResp []) (jstr "0x2105") (jstr "key") 1 =
      runLoop (fun _ => mkOkResp []) (jstr "0x2105") 1 0 0 [] [] :=
  c10_chain_id_coercion.2.2.2 (fun _ => mkOkResp []) (jstr "0x2105") (jstr "key") 1
    (by decide) (by decide)

/-- Inverting `consTrace` on a successful outcome. -/
lemma consTrace_eq_ok {t : Int} {o : Option RunResult} {tr : List Int}
    {tags : List ContractTag} (h : consTrace t o = some (.ok tr tags)) :
    ∃ tr', tr = t :: tr' ∧ o = some (.ok tr' tags) := by
  cases o with
  | none => cases h
  | some r =>
    cases r with
    | ok tr0 tags0 =>
      simp only [consTrace, Option.some.injEq, RunResult.ok.injEq] at h
      exact ⟨tr0, h.1.symm, by rw [h.2]⟩
    | failed tr0 m => simp [consTrace] at h

/-- A successful run made a successful fetch at every index its trace
records. -/
lemma runLoop_ok_all_fetches : ∀ (fuel : Nat) (remote : Nat → HttpResp) (chainId : JStr)
    (idx : Nat) (ts : Int) (seen : List JStr) (acc : List ContractTag)
    (tr : List Int) (tags : List ContractTag),
    runLoop remote chainId fuel idx ts seen acc = some (.ok tr tags) →
    ∀ j < tr.length, ∃ pools, fetchPools (remote (idx + j)) = .ok pools := by
  intro fuel
  induction fuel with
  | zero =>
    intro _ _ _ _ _ _ _ _ h
    exact absurd h (by simp [runLoop])
  | succ fuel ih =>
    intro remote chainId idx ts seen acc tr tags h j hj
    simp only [runLoop] at h
    cases hfetch : fetchPools (remote idx) with
    | error msg =>
      simp only [hfetch] at h
      simp at h
    | ok pools =>
      simp only [hfetch] at h
      by_cases hlen : pools.length = 1000
      · rw [if_pos hlen] at h
        obtain ⟨tr', htr, hrec⟩ := consTrace_eq_ok h
        subst htr
        cases j with
        | zero => exact ⟨pools, by simpa using hfetch⟩
        | succ jj =>
          have h2 := ih remote chainId (idx + 1) _ _ _ tr' tags hrec jj
            (by simpa using hj)
          rw [show idx + (jj + 1) = idx + 1 + jj by omega]
          exact h2
      · rw [if_neg hlen] at h
        simp only [Option.some.injEq, RunResult.ok.injEq] at h
        rw [← h.1] at hj
        simp at hj
        subst hj
        exact ⟨pools, by simpa using hfetch⟩

/-- C3: `fetchPools` throws on a non-ok HTTP status, on a present (in
particular non-empty) `errors` member, and on a missing `data` or
`data.pools`; a fetch error at any iteration makes the whole run return
`failed` — the trace stops at the failing fetch, which is not retried,
and no accumulated list is returned — while a run that returns `ok`
had every recorded fetch succeed. -/
theorem c3_fetch_failure_aborts :
    (∀ resp : HttpResp, resp.ok = false →
      fetchPools resp = .error (jstr "HTTP error: " ++ intToJStr resp.status)) ∧
    (∀ (resp : HttpResp) (es : List JStr), resp.ok = true → resp.errors = some es →
      fetchPools resp = .error (jstr "GraphQL errors occurred: see logs for details.")) ∧
    (∀ resp : HttpResp, resp.ok = true → resp.errors = none →
      (resp.data = none ∨ resp.data = some ⟨none⟩) →
      fetchPools resp = .error (jstr "No pools data found.")) ∧
    (∀ (remote : Nat → HttpResp) (chainId : JStr) (fuel idx : Nat) (ts : Int)
        (seen : List JStr) (acc : List ContractTag) (msg : JStr),
      fetchPools (remote idx) = .error msg →
      runLoop remote chainId (fuel + 1) idx ts seen acc =
        some (.failed [ts] (failMsg msg))) ∧
    (∀ (remote : Nat → HttpResp) (chainId apiKey : JStr) (fuel : Nat)
        (tr : List Int) (tags : List ContractTag),
      returnTags remote chainId apiKey fuel = some (.ok tr tags) →
      ∀ i < tr.length, ∃ pools, fetchPools (remote i) = .ok pools) := by
  refine ⟨fun resp h => ?_, fun resp es hok herr => ?_, fun resp hok herr hd => ?_,
    fun remote chainId fuel idx ts seen acc msg hfetch => ?_,
    fun remote chainId apiKey fuel tr tags h i hi => ?_⟩
  · unfold fetchPools
    rw [h]
    simp
  · unfold fetchPools
    rw [hok, herr]
    simp
  · unfold fetchPools
    rw [hok, herr]
    rcases hd with hd | hd <;> rw [hd] <;> simp
  · simp only [runLoop]
    rw [hfetch]
  · unfold returnTags at h
    split at h
    · exact absurd h (by simp)
    · split at h
      · exact absurd h (by simp)
      · simpa using runLoop_ok_all_fetches fuel remote chainId 0 0 [] [] tr tags h i hi

/-- Witness for C3: a 503 response fails the whole run with the wrapped
message and a single-fetch trace. -/
theorem c3_fetch_failure_aborts_witness :
    runLoop (fun _ => ⟨false, 503, none, none⟩) (jstr "8453") 3 0 0 [] [] =
      some (.failed [0] (failMsg (jstr "HTTP error: " ++ intToJStr 503))) :=
  c3_fetch_failure_aborts.2.2.2.1 (fun _ => ⟨false, 503, none, none⟩) (jstr "8453") 2 0 0 [] []
    (jstr "HTTP error: " ++ intToJStr 503) rfl

/-- C1: after a successful fetch the loop continues (MORE) iff the raw
page holds exactly 1000 pools — on MORE the next fetch is issued with
the cursor set to the `createdAtTimestamp` of the last raw pool of the
unfiltered page, on anything else the run stops and returns the
accumulated tags — and for a page-1 of exactly 1000 pools followed by a
page-2 of 400, exactly 2 fetches occur (trace `[0, page-1's last
timestamp]`) and the run returns the deduplicated tags of both pages. -/
theorem c1_pagination_driver :
    (∀ (remote : Nat → HttpResp) (chainId : JStr) (fuel idx : Nat) (ts : Int)
        (seen : List JStr) (acc : List ContractTag) (pools : List Pool) (plast : Pool),
      fetchPools (remote idx) = .ok pools → pools.length = 1000 →
      pools.getLast? = some plast →
      runLoop remote chainId (fuel + 1) idx ts seen acc =
        consTrace ts (runLoop remote chainId fuel (idx + 1) plast.createdAtTimestamp
          (dedupeAcc seen (transformPoolsToTags chainId pools)).2
          (acc ++ (dedupeAcc seen (transformPoolsToTags chainId pools)).1))) ∧
    (∀ (remote : Nat → HttpResp) (chainId : JStr) (fuel idx : Nat) (ts : Int)
        (seen : List JStr) (acc : List ContractTag) (pools : List Pool),
      fetchPools (remote idx) = .ok pools → pools.length ≠ 1000 →
      runLoop remote chainId (fuel + 1) idx ts seen acc =
        some (.ok [ts] (acc ++ (dedupeAcc seen (transformPoolsToTags chainId pools)).1))) ∧
    (∀ (page1 page2 : List Pool) (plast : Pool) (chainId apiKey : JStr)
        (remote : Nat → HttpResp) (fuel : Nat),
      chainIdAccepted chainId = true → apiKey ≠ [] →
      remote 0 = mkOkResp page1 → remote 1 = mkOkResp page2 →
      page1.length = 1000 → page2.length = 400 → page1.getLast? = some plast →
      returnTags remote chainId apiKey (fuel + 2) =
        some (.ok [0, plast.createdAtTimestamp]
          ((dedupeAcc [] (transformPoolsToTags chainId page1)).1 ++
            (dedupeAcc (dedupeAcc [] (transformPoolsToTags chainId page1)).2
              (transformPoolsToTags chainId page2)).1))) := by
  have stepMore : ∀ (remote : Nat → HttpResp) (chainId : JStr) (fuel idx : Nat) (ts : Int)
      (seen : List JStr) (acc : List ContractTag) (pools : List Pool) (plast : Pool),
      fetchPools (remote idx) = .ok pools → pools.length = 1000 →
      pools.getLast? = some plast →
      runLoop remote chainId (fuel + 1) idx ts seen acc =
        consTrace ts (runLoop remote chainId fuel (idx + 1) plast.createdAtTimestamp
          (dedupeAcc seen (transformPoolsToTags chainId pools)).2
          (acc ++ (dedupeAcc seen (transformPoolsToTags chainId pools)).1)) := by
    intro remote chainId fuel idx ts seen acc pools plast hfetch hlen hlast
    simp only [runLoop, hfetch, hlen, hlast]
    rw [if_pos trivial]
  have stepDone : ∀ (remote : Nat → HttpResp) (chainId : JStr) (fuel idx : Nat) (ts : Int)
      (seen : List JStr) (acc : List ContractTag) (pools : List Pool),
      fetchPools (remote idx) = .ok pools → pools.length ≠ 1000 →
      runLoop remote chainId (fuel + 1) idx ts seen acc =
        some (.ok [ts] (acc ++ (dedupeAcc seen (transformPoolsToTags chainId pools)).1)) := by
    intro remote chainId fuel idx ts seen acc pools hfetch hlen
    simp only [runLoop, hfetch]
    rw [if_neg hlen]
  refine ⟨stepMore, stepDone, ?_⟩
  intro page1 page2 plast chainId apiKey remote fuel hacc hkey hr0 hr1 hl1 hl2 hlast
  have hfetch1 : fetchPools (remote 0) = .ok page1 := by rw [hr0]; rfl
  have hfetch2 : fetchPools (remote 1) = .ok page2 := by rw [hr1]; rfl
  have hrt : returnTags remote chainId apiKey (fuel + 2) =
      runLoop remote chainId (fuel + 2) 0 0 [] [] := by
    cases apiKey with
    | nil => exact absurd rfl hkey
    | cons a as =>
      unfold returnTags
      rw [hacc]
      simp
  rw [hrt]
  rw [show fuel + 2 = (fuel + 1) + 1 from rfl]
  rw [stepMore remote chainId (fuel + 1) 0 0 [] [] page1 plast hfetch1 hl1 hlast]
  rw [stepDone remote chainId fuel 1 plast.createdAtTimestamp _ _ page2 hfetch2
    (by rw [hl2]; omega)]
  simp [consTrace]

-- Concrete two-page scenario used as the C1 witness.

/-- A minimal token for the witness pages. -/
def witToken : Token := ⟨jstr "t", jstr "W", jstr "WETH"⟩

/-- The pool filling the witness's first page. -/
def witPool1 : Pool := ⟨jstr "0xaaa", 100, witToken, witToken, [0, 10], 500⟩

/-- The pool filling the witness's second page. -/
def witPool2 : Pool := ⟨jstr "0xbbb", 200, witToken, witToken, [0, 10], 500⟩

/-- A remote serving 1000 copies of `witPool1` then 400 of `witPool2`. -/
def witRemote : Nat → HttpResp := fun i =>
  if i = 0 then mkOkResp (List.replicate 1000 witPool1)
  else mkOkResp (List.replicate 400 witPool2)

set_option maxRecDepth 200000 in
/-- Witness for C1: the concrete 1000-then-400 run issues exactly two
fetches and stops. -/
theorem c1_pagination_driver_witness :
    returnTags witRemote (jstr "8453") (jstr "key") 2 =
      some (.ok [0, 100]
        ((dedupeAcc [] (transformPoolsToTags (jstr "8453") (List.replicate 1000 witPool1))).1 ++
          (dedupeAcc
            (dedupeAcc [] (transformPoolsToTags (jstr "8453") (List.replicate 1000 witPool1))).2
            (transformPoolsToTags (jstr "8453") (List.replicate 400 witPool2))).1)) :=
  c1_pagination_driver.2.2 (List.replicate 1000 witPool1) (List.replicate 400 witPool2)
    witPool1 (jstr "8453") (jstr "key") witRemote 0 (by decide) (by decide) rfl rfl
    (by simp) (by simp) (by decide)

/-- The updated seen-set after a page is the set of kept addresses (in
reverse order) on top of the incoming one. -/
lemma dedupeAcc_seen_eq : ∀ (l : List ContractTag) (seen : List JStr),
    (dedupeAcc seen l).2 =
      ((dedupeAcc seen l).1.map (fun t => t.contractAddress)).reverse ++ seen := by
  intro l
  induction l with
  | nil => intro seen; simp [dedupeAcc]
  | cons t ts ih =>
    intro seen
    simp only [dedupeAcc]
    split
    · exact ih seen
    · simp only [List.map_cons, List.reverse_cons]
      rw [ih (t.contractAddress :: seen)]
      simp [List.append_assoc]

/-- The kept tags of a page have pairwise-distinct addresses, none of
them already seen. -/
lemma dedupeAcc_fresh_spec : ∀ (l : List ContractTag) (seen : List JStr),
    ((dedupeAcc seen l).1.map (fun t => t.contractAddress)).Nodup ∧
    ∀ t ∈ (dedupeAcc seen l).1, t.contractAddress ∉ seen := by
  intro l
  induction l with
  | nil => intro seen; simp [dedupeAcc]
  | cons t ts ih =>
    intro seen
    simp only [dedupeAcc]
    split
    · exact ih seen
    · rename_i hmem
      obtain ⟨ihn, ihs⟩ := ih (t.contractAddress :: seen)
      constructor
      · simp only [List.map_cons, List.nodup_cons]
        refine ⟨?_, ihn⟩
        intro hc
        obtain ⟨u, hu, hue⟩ := List.mem_map.mp hc
        exact ihs u hu (by rw [hue]; exact List.mem_cons_self _ _)
      · intro u hu
        rcases List.mem_cons.mp hu with heq | hu'
        · rw [heq]; exact hmem
        · exact fun hs => ihs u hu' (List.mem_cons_of_mem _ hs)

/-- With an invariant accumulator (distinct addresses, all recorded in
the seen-set), a successful loop returns tags with pairwise-distinct
addresses. -/
lemma runLoop_ok_nodup : ∀ (fuel : Nat) (remote : Nat → HttpResp) (chainId : JStr)
    (idx : Nat) (ts : Int) (seen : List JStr) (acc : List ContractTag)
    (tr : List Int) (tags : List ContractTag),
    (acc.map (fun t => t.contractAddress)).Nodup →
    (∀ a ∈ acc.map (fun t => t.contractAddress), a ∈ seen) →
    runLoop remote chainId fuel idx ts seen acc = some (.ok tr tags) →
    (tags.map (fun t => t.contractAddress)).Nodup := by
  intro fuel
  induction fuel with
  | zero =>
    intro _ _ _ _ _ _ _ _ _ _ h
    exact absurd h (by simp [runLoop])
  | succ fuel ih =>
    intro remote chainId idx ts seen acc tr tags hnd hsub h
    simp only [runLoop] at h
    cases hfetch : fetchPools (remote idx) with
    | error msg =>
      simp only [hfetch] at h
      simp at h
    | ok pools =>
      simp only [hfetch] at h
      have hfr := dedupeAcc_fresh_spec (transformPoolsToTags chainId pools) seen
      have hnd2 : ((acc ++ (dedupeAcc seen (transformPoolsToTags chainId pools)).1).map
          (fun t => t.contractAddress)).Nodup := by
        rw [List.map_append, List.nodup_append]
        refine ⟨hnd, hfr.1, ?_⟩
        intro a ha hb
        obtain ⟨u, hu, hue⟩ := List.mem_map.mp hb
        exact hfr.2 u hu (by rw [hue]; exact hsub a ha)
      by_cases hlen : pools.length = 1000
      · rw [if_pos hlen] at h
        obtain ⟨tr', htr, hrec⟩ := consTrace_eq_ok h
        refine ih remote chainId (idx + 1) _ _ _ tr' tags hnd2 ?_ hrec
        intro a ha
        rw [dedupeAcc_seen_eq]
        rw [List.map_append] at ha
        rcases List.mem_append.mp ha with ha | ha
        · exact List.mem_append_right _ (hsub a ha)
        · exact List.mem_append_left _ (List.mem_reverse.mpr ha)
      · rw [if_neg hlen] at h
        simp only [Option.some.injEq, RunResult.ok.injEq] at h
        rw [← h.2]
        exact hnd2

/-- For an address not yet seen, the page's kept representative is the
first emitted tag carrying it. -/
lemma dedupeAcc_find_first : ∀ (l : List ContractTag) (seen : List JStr) (a : JStr),
    a ∉ seen →
    ((dedupeAcc seen l).1.find? (fun t => t.contractAddress == a)) =
      l.find? (fun t => t.contractAddress == a) := by
  intro l
  induction l with
  | nil => intro seen a _; rfl
  | cons t ts ih =>
    intro seen a ha
    simp only [dedupeAcc]
    split
    · rename_i hmem
      rw [ih seen a ha]
      have hne : (t.contractAddress == a) = false := by
        simp only [beq_eq_false_iff_ne, ne_eq]
        intro he
        exact ha (he ▸ hmem)
      rw [List.find?_cons_of_neg _ (by simp [hne])]
    · rename_i hmem
      by_cases he : t.contractAddress = a
      · rw [List.find?_cons_of_pos _ (by simp [he]), List.find?_cons_of_pos _ (by simp [he])]
      · rw [List.find?_cons_of_neg _ (by simp [he]), List.find?_cons_of_neg _ (by simp [he])]
        exact ih (t.contractAddress :: seen) a (by
          simp only [List.mem_cons, not_or]
          exact ⟨fun h => he h.symm, ha⟩)

/-- Mapping the trace through `consTrace`. -/
lemma consTrace_map_trace (t : Int) (o : Option RunResult) :
    (consTrace t o).map RunResult.trace =
      (o.map RunResult.trace).map (fun tr => t :: tr) := by
  cases o with
  | none => rfl
  | some r => cases r <;> rfl

/-- The fetch trace of the loop does not depend on the chain id, the
seen-set or the accumulator — only on the remote's pages. -/
lemma runLoop_trace_indep : ∀ (fuel : Nat) (remote : Nat → HttpResp)
    (chainId chainId' : JStr) (idx : Nat) (ts : Int) (seen seen' : List JStr)
    (acc acc' : List ContractTag),
    (runLoop remote chainId fuel idx ts seen acc).map RunResult.trace =
    (runLoop remote chainId' fuel idx ts seen' acc').map RunResult.trace := by
  intro fuel
  induction fuel with
  | zero => intro _ _ _ _ _ _ _ _ _; rfl
  | succ fuel ih =>
    intro remote chainId chainId' idx ts seen seen' acc acc'
    simp only [runLoop]
    cases hfetch : fetchPools (remote idx) with
    | error msg => rfl
    | ok pools =>
      simp only []
      by_cases hlen : pools.length = 1000
      · rw [if_pos hlen, if_pos hlen, consTrace_map_trace, consTrace_map_trace]
        exact congrArg _ (ih remote chainId chainId' (idx + 1) _ _ _ _ _)
      · rw [if_neg hlen, if_neg hlen]
        rfl

/-- C2: every successful run returns tags whose contract addresses are
pairwise distinct; within a page, the kept tag for a fresh address is
the first emitted one with that address and nothing with an
already-seen address survives; and the continuation decision (the fetch
trace) is independent of the dedup state, the accumulator and the chain
id — it depends only on the raw pages. -/
theorem c2_unique_contract_addresses :
    (∀ (remote : Nat → HttpResp) (chainId apiKey : JStr) (fuel : Nat)
        (tr : List Int) (tags : List ContractTag),
      returnTags remote chainId apiKey fuel = some (.ok tr tags) →
      (tags.map (fun t => t.contractAddress)).Nodup) ∧
    (∀ (seen : List JStr) (l : List ContractTag) (a : JStr), a ∉ seen →
      ((dedupeAcc seen l).1.find? (fun t => t.contractAddress == a)) =
        l.find? (fun t => t.contractAddress == a)) ∧
    (∀ (seen : List JStr) (l : List ContractTag) (a : JStr), a ∈ seen →
      ∀ t ∈ (dedupeAcc seen l).1, t.contractAddress ≠ a) ∧
    (∀ (remote : Nat → HttpResp) (chainId chainId' : JStr) (fuel idx : Nat) (ts : Int)
        (seen seen' : List JStr) (acc acc' : List ContractTag),
      (runLoop remote chainId fuel idx ts seen acc).map RunResult.trace =
      (runLoop remote chainId' fuel idx ts seen' acc').map RunResult.trace) := by
  refine ⟨?_, fun seen l a ha => dedupeAcc_find_first l seen a ha,
    fun seen l a ha t ht he => (dedupeAcc_fresh_spec l seen).2 t ht (by rw [he]; exact ha),
    fun remote chainId chainId' fuel idx ts seen seen' acc acc' =>
      runLoop_trace_indep fuel remote chainId chainId' idx ts seen seen' acc acc'⟩
  intro remote chainId apiKey fuel tr tags h
  unfold returnTags at h
  split at h
  · exact absurd h (by simp)
  · split at h
    · exact absurd h (by simp)
    · exact runLoop_ok_nodup fuel remote chainId 0 0 [] [] tr tags (by simp) (by simp) h

/-- Witness for C2: a page with a duplicated pool yields a single tag
with (trivially) distinct addresses, the duplicate dropped. -/
theorem c2_unique_contract_addresses_witness :
    (([poolToTag (jstr "8453") witPool1].map (fun t => t.contractAddress)).Nodup) :=
  c2_unique_contract_addresses.1 (fun _ => mkOkResp [witPool1, witPool1]) (jstr "8453")
    (jstr "key") 1 [0] [poolToTag (jstr "8453") witPool1] (by decide)

end AeroATQ
